import Mathlib

/-!
Shallow embedding of the schema-driven form engine in
`src/components/dynamic-form.tsx`: the zod schema compiler (`buildSchema`),
the default-value synthesizer (`generateDefaultValues`) and the section
state machine (`handleNext`, `handlePrev`, `onSubmit`), together with the
semantics of the compiled zod rules as executed by the react-hook-form
zod resolver (rules are run in order, the first failing rule supplies the
reported message; `.optional()` admits only the absent value).
-/

namespace DynamicForm

/-- Field types, the closed union from `FormField.type` in `lib/api/form.ts`
(the source literal for `radioChoice` is the string for a radio group). -/
inductive FieldType
  | text
  | tel
  | email
  | textarea
  | date
  | dropdown
  | radioChoice
  | checkbox
deriving DecidableEq, Repr

/-- `FormField` from `lib/api/form.ts`; `validationMessage` embeds the
optional `validation.message` record. -/
structure FormField where
  fieldId : String
  type : FieldType
  label : String
  required : Bool
  validationMessage : Option String := none
  minLength : Option Nat := none
  maxLength : Option Nat := none
deriving DecidableEq, Repr

/-- `FormSection` from `lib/api/form.ts` (only the fields matter to the
engine; ids/titles are presentation). -/
structure FormSection where
  fields : List FormField
deriving DecidableEq, Repr

/-- `Form` from `lib/api/form.ts`. -/
structure Form where
  sections : List FormSection
deriving DecidableEq, Repr

/-- A runtime value of the answer map: strings for text-like widgets,
booleans for checkboxes, `undef` for an absent (JS `undefined`) entry. -/
inductive Value
  | str (s : String)
  | bool (b : Bool)
  | undef
deriving DecidableEq, Repr

/-- Calendar date as plain numerals, standing for the local calendar day
used by `startOfDay(new Date())` and by parsing a `YYYY-MM-DD` string. -/
structure SimpleDate where
  y : Nat
  m : Nat
  d : Nat
deriving DecidableEq, Repr

/-- Calendar order on dates; the JS comparison of the timezone-adjusted
parsed date against local midnight of today compares calendar days. -/
def SimpleDate.le (a b : SimpleDate) : Bool :=
  a.y < b.y || (a.y == b.y && (a.m < b.m || (a.m == b.m && a.d ≤ b.d)))

/-- Gregorian leap-year rule (as in the JS `Date` calendar). -/
def isLeap (y : Nat) : Bool :=
  (y % 4 == 0 && y % 100 != 0) || y % 400 == 0

/-- Days in a month of the JS `Date` calendar. -/
def daysInMonth (y m : Nat) : Nat :=
  if m == 2 then (if isLeap y then 29 else 28)
  else if m == 4 || m == 6 || m == 9 || m == 11 then 30
  else 31

/-- Whether a parsed `YYYY-MM-DD` triple is a real calendar date: this is
what makes `new Date(dateStr)` yield a valid (non-NaN) time value for an
ISO string in JS. -/
def validDate (dt : SimpleDate) : Bool :=
  1 ≤ dt.m && dt.m ≤ 12 && 1 ≤ dt.d && dt.d ≤ daysInMonth dt.y dt.m

/-- The format test `^\d{4}-\d{2}-\d{2}$` from the date branch of
`buildSchema`. -/
def dateFormatOk (s : String) : Bool :=
  let cs := s.toList
  cs.length == 10 &&
  (cs.take 4).all Char.isDigit &&
  cs.getD 4 ' ' == '-' &&
  ((cs.drop 5).take 2).all Char.isDigit &&
  cs.getD 7 ' ' == '-' &&
  ((cs.drop 8).take 2).all Char.isDigit

/-- Decimal value of a digit sequence. -/
def digitsToNat (cs : List Char) : Nat :=
  cs.foldl (fun acc c => acc * 10 + (c.toNat - 48)) 0

/-- Numeric reading of the three components of a `YYYY-MM-DD` string, as
`new Date(dateStr)` reads them. -/
def parseDate (s : String) : SimpleDate :=
  let cs := s.toList
  { y := digitsToNat (cs.take 4)
    m := digitsToNat ((cs.drop 5).take 2)
    d := digitsToNat ((cs.drop 8).take 2) }

/-- Character class of the phone rule `^[\d\s\-()+]*$` in the `tel` branch
of `buildSchema`. -/
def telChar (c : Char) : Bool :=
  c.isDigit || c.isWhitespace || c == '-' || c == '(' || c == ')' || c == '+'

/-- Split a character list at every occurrence of a separator (the list
counterpart of JS `split(sep)` for one-character separators). -/
def splitOnChar (sep : Char) : List Char → List (List Char)
  | [] => [[]]
  | c :: rest =>
    if c == sep then [] :: splitOnChar sep rest
    else
      match splitOnChar sep rest with
      | [] => [[c]]
      | g :: gs => (c :: g) :: gs

/-- Characters zod admits in the local part of an email address
(letters, digits, underscore, plus, hyphen, dot, apostrophe — code 39). -/
def emailLocalChar (c : Char) : Bool :=
  c.isAlpha || c.isDigit || c == '_' || c == '+' || c == '-' || c == '.' ||
  c.toNat == 39

/-- No two consecutive dots (zod forbids `..` in the local part). -/
def noDoubleDot : List Char → Bool
  | [] => true
  | [_] => true
  | a :: b :: rest => !(a == '.' && b == '.') && noDoubleDot (b :: rest)

/-- Local part of an email as accepted by the zod email pattern: nonempty,
allowed characters only, no leading dot, no `..`, and the character just
before the `@` is a letter, digit, underscore, plus or hyphen. -/
def emailLocalOk (cs : List Char) : Bool :=
  match cs with
  | [] => false
  | c :: _ =>
    cs.all emailLocalChar && !(c == '.') && noDoubleDot cs &&
    (match cs.getLast? with
     | some l => l.isAlpha || l.isDigit || l == '_' || l == '+' || l == '-'
     | none => false)

/-- One domain label: starts with a letter or digit, then letters, digits
or hyphens. -/
def domainLabelOk (cs : List Char) : Bool :=
  match cs with
  | [] => false
  | c :: rest =>
    (c.isAlpha || c.isDigit) && rest.all (fun x => x.isAlpha || x.isDigit || x == '-')

/-- Final domain label: at least two letters. -/
def tldOk (cs : List Char) : Bool :=
  2 ≤ cs.length && cs.all Char.isAlpha

/-- Domain of an email: dot-separated labels ending in an alphabetic
top-level label of length at least two. -/
def emailDomainOk (cs : List Char) : Bool :=
  let parts := splitOnChar '.' cs
  2 ≤ parts.length &&
  (match parts.getLast? with
   | some t => tldOk t
   | none => false) &&
  parts.dropLast.all domainLabelOk

/-- Models the well-formedness test behind `z.string().email()` (the zod
email pattern): exactly one `@` separating a valid local part from a valid
domain. -/
def isEmail (s : String) : Bool :=
  match splitOnChar '@' s.toList with
  | [lp, dom] => emailLocalOk lp && emailDomainOk dom
  | _ => false

/-- One compiled zod rule attached to a field schema, in the order zod
runs them; each carries the message it reports on failure. -/
inductive Check
  | minLen (n : Nat) (msg : String)
  | maxLen (n : Nat) (msg : String)
  | emailFmt (msg : String)
  | telFmt (msg : String)
  | dateFmt (msg : String)
  | dateNotFuture (msg : String)
  | mustBeTrue (msg : String)
  | nonEmpty (msg : String)
deriving DecidableEq, Repr

/-- The message a failing rule reports. -/
def checkMsg : Check → String
  | .minLen _ m => m
  | .maxLen _ m => m
  | .emailFmt m => m
  | .telFmt m => m
  | .dateFmt m => m
  | .dateNotFuture m => m
  | .mustBeTrue m => m
  | .nonEmpty m => m

/-- Base zod type of a compiled field schema. -/
inductive BaseType
  | strT
  | boolT
deriving DecidableEq, Repr

/-- A compiled field schema: base type, ordered rule list, whether an
`.optional()` wrapper was applied, the `.default(...)` value if any, and
the zod `_def.typeName` string the source inspects at runtime. -/
structure Rule where
  base : BaseType
  checks : List Check
  isOpt : Bool
  defaultVal : Option Value
  typeName : String
deriving DecidableEq, Repr

/-- Whether `pat` occurs at the start of `hay`. -/
def startsWithSeq : List Char → List Char → Bool
  | _, [] => true
  | [], _ :: _ => false
  | a :: as, b :: bs => a == b && startsWithSeq as bs

/-- Whether `pat` occurs anywhere in the haystack. -/
def containsSeq (pat : List Char) : List Char → Bool
  | [] => startsWithSeq [] pat
  | c :: rest => startsWithSeq (c :: rest) pat || containsSeq pat rest

/-- `_def.typeName.includes("Optional")` from the non-required branch of
`buildSchema`. -/
def containsOptional (s : String) : Bool :=
  containsSeq "Optional".toList s.toList

/-- `field.validation?.message || d` — the message-defaulting idiom used
throughout `buildSchema`. -/
def msgOr (f : FormField) (d : String) : String :=
  f.validationMessage.getD d

/-- The built-in minLength message: `label must be at least n characters`. -/
def minLenMsg (f : FormField) (n : Nat) : String :=
  f.label ++ " must be at least " ++ toString n ++ " characters"

/-- The built-in maxLength message: `label cannot exceed n characters`. -/
def maxLenMsg (f : FormField) (n : Nat) : String :=
  f.label ++ " cannot exceed " ++ toString n ++ " characters"

/-- The `.min(minLength)` / `.max(maxLength)` chain added for text,
textarea and tel fields. -/
def lengthChecks (f : FormField) : List Check :=
  (match f.minLength with
   | some n => [Check.minLen n (minLenMsg f n)]
   | none => []) ++
  (match f.maxLength with
   | some n => [Check.maxLen n (maxLenMsg f n)]
   | none => [])

/-- The `switch (field.type)` of `buildSchema`: the per-type base schema
before the common required/optional post-processing. -/
def switchRule (f : FormField) : Rule :=
  match f.type with
  | .text | .textarea =>
    { base := .strT, checks := lengthChecks f, isOpt := false,
      defaultVal := none, typeName := "ZodString" }
  | .email =>
    { base := .strT, checks := [Check.emailFmt (msgOr f "Invalid email address")],
      isOpt := false, defaultVal := none, typeName := "ZodString" }
  | .tel =>
    { base := .strT,
      checks := Check.telFmt (msgOr f "Invalid phone number format") :: lengthChecks f,
      isOpt := false, defaultVal := none, typeName := "ZodString" }
  | .date =>
    { base := .strT,
      checks := [Check.dateFmt (msgOr f "Invalid date format (YYYY-MM-DD)"),
                 Check.dateNotFuture (msgOr f (f.label ++ " cannot be a future date"))],
      isOpt := false, defaultVal := none, typeName := "ZodEffects" }
  | .dropdown | .radioChoice =>
    { base := .strT, checks := [], isOpt := false,
      defaultVal := none, typeName := "ZodString" }
  | .checkbox =>
    if f.required then
      { base := .boolT, checks := [Check.mustBeTrue (msgOr f (f.label ++ " is required"))],
        isOpt := false, defaultVal := none, typeName := "ZodEffects" }
    else
      { base := .boolT, checks := [], isOpt := true,
        defaultVal := some (Value.bool false), typeName := "ZodDefault" }

/-- Compile one field: the switch, then the required / optional
post-processing of `buildSchema`.  A required non-checkbox field gets
`.min(1)` when the schema is still a `ZodString` instance and a
`.refine(val !== ...)` otherwise (the date schema is a `ZodEffects` after
its refine, so it takes the second branch); a non-required non-checkbox
field is wrapped with `.optional()` unless its type name already contains
`Optional`. -/
def compileField (f : FormField) : Rule :=
  let r := switchRule f
  if f.required = true ∧ f.type ≠ FieldType.checkbox then
    if r.typeName = "ZodString" then
      { r with checks := r.checks ++ [Check.minLen 1 (msgOr f (f.label ++ " is required"))] }
    else
      { r with checks := r.checks ++ [Check.nonEmpty (msgOr f (f.label ++ " is required"))],
               typeName := "ZodEffects" }
  else if f.required = false ∧ f.type ≠ FieldType.checkbox then
    if ¬ (containsOptional r.typeName = true) then
      { r with isOpt := true, typeName := "ZodOptional" }
    else r
  else r

/-- Run one rule on a value; checks on a value of the wrong base type
never execute (the base type test fails first in `evalRule`). -/
def runCheck (today : SimpleDate) (c : Check) (v : Value) : Bool :=
  match v with
  | .str s =>
    match c with
    | .minLen n _ => n ≤ s.length
    | .maxLen n _ => s.length ≤ n
    | .emailFmt _ => isEmail s
    | .telFmt _ => s.toList.all telChar
    | .dateFmt _ => dateFormatOk s
    | .dateNotFuture _ =>
      dateFormatOk s && validDate (parseDate s) && (parseDate s).le today
    | .mustBeTrue _ => false
    | .nonEmpty _ => !(s == "")
  | .bool b =>
    match c with
    | .mustBeTrue _ => b
    | .nonEmpty _ => true
    | _ => false
  | .undef => false

/-- First failing rule of the list, with its message — the error react-
hook-form keeps for a field is the first zod issue on its path. -/
def firstFailure (today : SimpleDate) (checks : List Check) (v : Value) : Option String :=
  match checks with
  | [] => none
  | c :: rest =>
    if runCheck today c v then firstFailure today rest v else some (checkMsg c)

/-- Whether a value has the base type of a schema. -/
def baseOk (b : BaseType) (v : Value) : Bool :=
  match b, v with
  | .strT, .str _ => true
  | .boolT, .bool _ => true
  | _, _ => false

/-- The zod invalid-type message for a mismatched base type. -/
def baseErr (b : BaseType) (v : Value) : String :=
  "Expected " ++ (match b with | .strT => "string" | .boolT => "boolean") ++
  ", received " ++ (match v with
                    | .str _ => "string"
                    | .bool _ => "boolean"
                    | .undef => "undefined")

/-- Evaluate a compiled field schema on a value: `.default` replaces an
absent value, `.optional()` accepts an absent value, otherwise the base
type is checked and then the rules run in order.  `none` means valid,
`some msg` is the reported error message. -/
def evalRule (today : SimpleDate) (r : Rule) (v : Value) : Option String :=
  let v1 := match v, r.defaultVal with
            | .undef, some d => d
            | w, _ => w
  if v1 = Value.undef ∧ r.isOpt = true then none
  else if baseOk r.base v1 = false then some (baseErr r.base v1)
  else firstFailure today r.checks v1

/-- JS object property assignment `shape[k] = v`: overwrite in place when
the key exists, append otherwise. -/
def upsert {α : Type} (m : List (String × α)) (k : String) (v : α) : List (String × α) :=
  match m with
  | [] => [(k, v)]
  | (k0, v0) :: rest =>
    if k0 == k then (k0, v) :: rest else (k0, v0) :: upsert rest k v

/-- `buildSchema`: fold every section's fields into the schema shape. -/
def buildSchema (sections : List FormSection) : List (String × Rule) :=
  sections.foldl
    (fun shape sec =>
      sec.fields.foldl (fun sh f => upsert sh f.fieldId (compileField f)) shape)
    []

/-- The default value of one field: `false` for checkboxes, the empty
string otherwise. -/
def defaultFor (f : FormField) : Value :=
  if f.type = FieldType.checkbox then Value.bool false else Value.str ""

/-- `generateDefaultValues`: one default entry per field, folded in the
same JS-object order as the schema. -/
def generateDefaultValues (sections : List FormSection) : List (String × Value) :=
  sections.foldl
    (fun ds sec => sec.fields.foldl (fun d f => upsert d f.fieldId (defaultFor f)) ds)
    []

/-- JS object property read `m[k]` as an option. -/
def getEntry {α : Type} (m : List (String × α)) (k : String) : Option α :=
  (m.find? (fun p => p.1 == k)).map (fun p => p.2)

/-- Read an answer: a missing key is JS `undefined`. -/
def lookupVal (m : List (String × Value)) (k : String) : Value :=
  (getEntry m k).getD Value.undef

/-- Read a compiled rule from the schema shape. -/
def lookupRule (m : List (String × Rule)) (k : String) : Option Rule :=
  getEntry m k

/-- Validation outcome of one field under the full compiled schema, as
`form.trigger` reports it (`none` = no error). -/
def fieldError (today : SimpleDate) (schema : List (String × Rule))
    (answers : List (String × Value)) (fid : String) : Option String :=
  match lookupRule schema fid with
  | some r => evalRule today r (lookupVal answers fid)
  | none => none

/-- All field errors of the whole form, keyed by fieldId, in schema
order — the error map after `form.trigger()`. -/
def formErrors (today : SimpleDate) (schema : List (String × Rule))
    (answers : List (String × Value)) : List (String × String) :=
  schema.filterMap
    (fun p => (evalRule today p.2 (lookupVal answers p.1)).map (fun m => (p.1, m)))

/-- `!!form.formState.errors[fieldId]`. -/
def hasError (errors : List (String × String)) (fid : String) : Bool :=
  errors.any (fun p => p.1 == fid)

/-- The engine state: `currentSectionIndex` and the live answer map held
by react-hook-form. -/
structure EngineState where
  sectionIndex : Nat
  answers : List (String × Value)
deriving DecidableEq, Repr

/-- The fieldIds of one section (`section.fields.map(f => f.fieldId)`). -/
def sectionFieldIds (sec : FormSection) : List String :=
  sec.fields.map (fun f => f.fieldId)

/-- `formStructure.sections[currentSectionIndex]` (the source never reads
it out of range while the index invariant holds). -/
def currentSection (form : Form) (st : EngineState) : FormSection :=
  form.sections.getD st.sectionIndex { fields := [] }

/-- Initial engine state: section 0 and the synthesized defaults. -/
def initialState (form : Form) : EngineState :=
  { sectionIndex := 0, answers := generateDefaultValues form.sections }

/-- `handleNext`: trigger validation for the current section's fieldIds
only; advance one section when they all pass and a next section exists,
otherwise stay (and request a notification, a pure side effect). -/
def handleNext (today : SimpleDate) (form : Form) (st : EngineState) : EngineState :=
  let schema := buildSchema form.sections
  let fids := sectionFieldIds (currentSection form st)
  let isValid := fids.all (fun fid => (fieldError today schema st.answers fid).isNone)
  if isValid = true ∧ st.sectionIndex < form.sections.length - 1 then
    { st with sectionIndex := st.sectionIndex + 1 }
  else st

/-- `handlePrev`: step back one section unless already at the first. -/
def handlePrev (st : EngineState) : EngineState :=
  if st.sectionIndex > 0 then { st with sectionIndex := st.sectionIndex - 1 } else st

/-- `sectionFields.some(fieldId => !!errors[fieldId])` — whether a section
contains a field with a validation error. -/
def sectionHasErr (errors : List (String × String)) (sec : FormSection) : Bool :=
  (sectionFieldIds sec).any (fun fid => hasError errors fid)

/-- The `for` loop of `onSubmit` that finds the first section (ascending
index, first match wins) containing a field with an error. -/
def firstErrorSectionAux (errors : List (String × String)) :
    List FormSection → Option Nat
  | [] => none
  | sec :: rest =>
    if sectionHasErr errors sec then some 0
    else (firstErrorSectionAux errors rest).map (fun i => i + 1)

/-- Result of `onSubmit`: the state afterwards and the answer map handed
to the submission sink (`none` when validation failed and nothing was
submitted). -/
structure SubmitResult where
  state : EngineState
  submitted : Option (List (String × Value))
deriving DecidableEq, Repr

/-- `onSubmit`: validate the whole form.  On failure, move to the first
section containing an error only when it differs from the current one,
and submit nothing.  On success, hand the current answers to the sink,
reset the answers to the defaults and return to section 0. -/
def onSubmit (today : SimpleDate) (form : Form) (st : EngineState) : SubmitResult :=
  let schema := buildSchema form.sections
  let errors := formErrors today schema st.answers
  if errors = [] then
    { state := { sectionIndex := 0, answers := generateDefaultValues form.sections }
      submitted := some st.answers }
  else
    let st1 :=
      match firstErrorSectionAux errors form.sections with
      | some i => if i ≠ st.sectionIndex then { st with sectionIndex := i } else st
      | none => st
    { state := st1, submitted := none }

/-- All fields of the form, flattened in section-then-field order. -/
def allFields : List FormSection → List FormField
  | [] => []
  | sec :: rest => sec.fields ++ allFields rest

/-- All fieldIds of the form, in section-then-field order. -/
def allFieldIds (sections : List FormSection) : List String :=
  (allFields sections).map (fun f => f.fieldId)

/-- Generic fold of JS object assignments `m[f.fieldId] = g f`, one per
field in order; `buildSchema` and `generateDefaultValues` are both
instances of it over the flattened field list. -/
def foldUpsert {α : Type} (g : FormField → α) (fields : List FormField)
    (init : List (String × α)) : List (String × α) :=
  fields.foldl (fun m f => upsert m f.fieldId (g f)) init

/-- `k` applications of `handleNext` (clicking Next `k` times). -/
def nextN (today : SimpleDate) (form : Form) : Nat → EngineState → EngineState
  | 0, st => st
  | n + 1, st => nextN today form n (handleNext today form st)

/-! ### Concrete fixtures used by the witnesses -/

def wField1 : FormField := FormField.mk "first" FieldType.text "First" true none none none

def wField2 : FormField := FormField.mk "agree" FieldType.checkbox "Agree" false none none none

def wField3 : FormField := FormField.mk "last" FieldType.text "Last" true none none none

/-- A two-section form: a required text field and an optional checkbox in
section 0, a required text field in section 1. -/
def wForm : Form := Form.mk [FormSection.mk [wField1, wField2], FormSection.mk [wField3]]

/-- Answers valid in every section of `wForm`. -/
def wGood : List (String × Value) :=
  [("first", Value.str "Ada"), ("agree", Value.bool false), ("last", Value.str "Lovelace")]

/-- Answers invalid in section 0 of `wForm` (required field empty). -/
def wBad : List (String × Value) :=
  [("first", Value.str ""), ("agree", Value.bool false), ("last", Value.str "Lovelace")]

/-- Answers agreeing with `wGood` on section 0 but invalid in section 1. -/
def wGood2 : List (String × Value) :=
  [("first", Value.str "Ada"), ("agree", Value.bool false), ("last", Value.str "")]

/-! ### Helper lemmas about association-list assignment -/

theorem getEntry_cons {α : Type} (k0 : String) (v0 : α) (tl : List (String × α))
    (k1 : String) :
    getEntry ((k0, v0) :: tl) k1 = if k0 = k1 then some v0 else getEntry tl k1 := by
  unfold getEntry
  by_cases h : k0 = k1
  · rw [List.find?_cons_of_pos _ (by simp [h]), if_pos h]
    rfl
  · rw [List.find?_cons_of_neg _ (by simp [h]), if_neg h]

theorem upsert_cons {α : Type} (k0 : String) (v0 : α) (tl : List (String × α))
    (k : String) (v : α) :
    upsert ((k0, v0) :: tl) k v =
      if k0 = k then (k0, v) :: tl else (k0, v0) :: upsert tl k v := by
  by_cases h : k0 = k <;> simp [upsert, h]

theorem getEntry_upsert {α : Type} (m : List (String × α)) (k k1 : String) (v : α) :
    getEntry (upsert m k v) k1 = if k = k1 then some v else getEntry m k1 := by
  induction m with
  | nil =>
    show getEntry [(k, v)] k1 = _
    rw [getEntry_cons]
  | cons hd tl ih =>
    obtain ⟨k0, v0⟩ := hd
    rw [upsert_cons]
    by_cases h0 : k0 = k
    · rw [if_pos h0, getEntry_cons, getEntry_cons]
      subst h0
      by_cases h1 : k0 = k1 <;> simp [h1]
    · rw [if_neg h0, getEntry_cons, getEntry_cons, ih]
      by_cases h1 : k0 = k1
      · by_cases h2 : k = k1
        · exact absurd (h1.trans h2.symm) h0
        · simp [h1, h2]
      · simp [h1]

theorem keys_upsert_sub {α : Type} (m : List (String × α)) (k : String) (v : α) :
    ∀ x ∈ (upsert m k v).map Prod.fst, x ∈ m.map Prod.fst ∨ x = k := by
  induction m with
  | nil =>
    intro x hx
    right
    simpa [upsert] using hx
  | cons hd tl ih =>
    obtain ⟨k0, v0⟩ := hd
    intro x hx
    rw [upsert_cons] at hx
    by_cases h0 : k0 = k
    · rw [if_pos h0] at hx
      left
      simpa using hx
    · rw [if_neg h0] at hx
      simp only [List.map_cons, List.mem_cons] at hx ⊢
      rcases hx with hx | hx
      · left; left; exact hx
      · rcases ih x hx with h | h
        · left; right; exact h
        · right; exact h

theorem upsert_of_not_mem {α : Type} (m : List (String × α)) (k : String) (v : α)
    (h : k ∉ m.map Prod.fst) : upsert m k v = m ++ [(k, v)] := by
  induction m with
  | nil => rfl
  | cons hd tl ih =>
    obtain ⟨k0, v0⟩ := hd
    simp only [List.map_cons, List.mem_cons, not_or] at h
    rw [upsert_cons, if_neg (fun he => h.1 he.symm), ih h.2]
    rfl

theorem foldUpsert_append {α : Type} (g : FormField → α) (a b : List FormField)
    (init : List (String × α)) :
    foldUpsert g (a ++ b) init = foldUpsert g b (foldUpsert g a init) := by
  simp [foldUpsert, List.foldl_append]

theorem buildSchema_eq (sections : List FormSection) :
    buildSchema sections = foldUpsert compileField (allFields sections) [] := by
  suffices h : ∀ init, sections.foldl
      (fun shape sec => sec.fields.foldl (fun sh f => upsert sh f.fieldId (compileField f)) shape)
      init = foldUpsert compileField (allFields sections) init by
    exact h []
  induction sections with
  | nil => intro init; simp [allFields, foldUpsert]
  | cons sec rest ih =>
    intro init
    simp only [List.foldl_cons, allFields, foldUpsert_append]
    exact ih _

theorem generateDefaultValues_eq (sections : List FormSection) :
    generateDefaultValues sections = foldUpsert defaultFor (allFields sections) [] := by
  suffices h : ∀ init, sections.foldl
      (fun ds sec => sec.fields.foldl (fun d f => upsert d f.fieldId (defaultFor f)) ds)
      init = foldUpsert defaultFor (allFields sections) init by
    exact h []
  induction sections with
  | nil => intro init; simp [allFields, foldUpsert]
  | cons sec rest ih =>
    intro init
    simp only [List.foldl_cons, allFields, foldUpsert_append]
    exact ih _

theorem getEntry_foldUpsert {α : Type} (g : FormField → α) (fields : List FormField)
    (init : List (String × α)) (k : String) :
    getEntry (foldUpsert g fields init) k =
      match fields.reverse.find? (fun f => f.fieldId == k) with
      | some f => some (g f)
      | none => getEntry init k := by
  induction fields generalizing init with
  | nil => simp [foldUpsert]
  | cons f rest ih =>
    have hstep : foldUpsert g (f :: rest) init = foldUpsert g rest (upsert init f.fieldId (g f)) := by
      simp [foldUpsert]
    rw [hstep, ih]
    have hrev : (f :: rest).reverse = rest.reverse ++ [f] := by simp
    rw [hrev, List.find?_append]
    cases hfind : rest.reverse.find? (fun x => x.fieldId == k) with
    | some x => simp [hfind]
    | none =>
      simp only [hfind]
      by_cases hk : f.fieldId = k
      · rw [List.find?_cons_of_pos _ (by simp [hk])]
        rw [getEntry_upsert, if_pos hk]
        simp
      · rw [List.find?_cons_of_neg _ (by simp [hk])]
        rw [List.find?_nil, getEntry_upsert, if_neg hk]
        simp

/-! ### Helper lemmas about rule evaluation -/

theorem firstFailure_append (today : SimpleDate) (a b : List Check) (v : Value) :
    firstFailure today (a ++ b) v =
      match firstFailure today a v with
      | some m => some m
      | none => firstFailure today b v := by
  induction a with
  | nil => simp [firstFailure]
  | cons c rest ih =>
    cases h : runCheck today c v with
    | true => simp [firstFailure, h, ih]
    | false => simp [firstFailure, h]

theorem firstFailure_ne_none (today : SimpleDate) (checks : List Check) (v : Value)
    (h : ∃ c ∈ checks, runCheck today c v = false) :
    firstFailure today checks v ≠ none := by
  induction checks with
  | nil => simp at h
  | cons c rest ih =>
    cases hc : runCheck today c v with
    | true =>
      obtain ⟨c0, hmem, hfail⟩ := h
      have h0 : ∃ c1 ∈ rest, runCheck today c1 v = false := by
        rcases List.mem_cons.mp hmem with heq | hmem0
        · subst heq; rw [hc] at hfail; cases hfail
        · exact ⟨c0, hmem0, hfail⟩
      simpa [firstFailure, hc] using ih h0
    | false => simp [firstFailure, hc]

theorem evalRule_str (today : SimpleDate) (r : Rule) (s : String)
    (hb : r.base = BaseType.strT) :
    evalRule today r (Value.str s) = firstFailure today r.checks (Value.str s) := by
  cases hd : r.defaultVal <;> simp [evalRule, hb, baseOk, hd]

theorem formErrors_eq_nil_iff (today : SimpleDate) (schema : List (String × Rule))
    (answers : List (String × Value)) :
    formErrors today schema answers = [] ↔
      ∀ p ∈ schema, evalRule today p.2 (lookupVal answers p.1) = none := by
  unfold formErrors
  rw [List.filterMap_eq_nil_iff]
  constructor
  · intro h p hp
    have := h p hp
    cases hev : evalRule today p.2 (lookupVal answers p.1) with
    | none => rfl
    | some m => rw [hev] at this; cases this
  · intro h p hp
    rw [h p hp]
    rfl

theorem fieldError_eq_none (today : SimpleDate) (schema : List (String × Rule))
    (answers : List (String × Value)) (fid : String)
    (h : formErrors today schema answers = []) :
    fieldError today schema answers fid = none := by
  unfold fieldError lookupRule
  cases hg : getEntry schema fid with
  | none => rfl
  | some r =>
    unfold getEntry at hg
    obtain ⟨p, hfind, hp2⟩ := Option.map_eq_some'.mp hg
    have hmem : p ∈ schema := List.mem_of_find?_eq_some hfind
    have hkey : p.1 = fid := by
      have := List.find?_some hfind
      simpa using this
    have := (formErrors_eq_nil_iff today schema answers).mp h p hmem
    rw [hkey, hp2] at this
    exact this

theorem keys_foldUpsert_sub {α : Type} (g : FormField → α) (fields : List FormField)
    (init : List (String × α)) :
    ∀ x ∈ (foldUpsert g fields init).map Prod.fst,
      x ∈ init.map Prod.fst ∨ x ∈ fields.map (fun f => f.fieldId) := by
  induction fields generalizing init with
  | nil =>
    intro x hx
    left
    simpa [foldUpsert] using hx
  | cons f rest ih =>
    intro x hx
    have hx1 := ih (upsert init f.fieldId (g f)) x (by simpa [foldUpsert] using hx)
    rcases hx1 with h | h
    · rcases keys_upsert_sub init f.fieldId (g f) x h with h1 | h1
      · left; exact h1
      · right; simp [h1]
    · right; simp [h]

theorem mem_buildSchema_keys (sections : List FormSection) (x : String)
    (hx : x ∈ (buildSchema sections).map Prod.fst) : x ∈ allFieldIds sections := by
  rw [buildSchema_eq] at hx
  rcases keys_foldUpsert_sub compileField (allFields sections) [] x hx with h | h
  · simp at h
  · exact h

theorem mem_formErrors_key (today : SimpleDate) (schema : List (String × Rule))
    (answers : List (String × Value)) (e : String × String)
    (he : e ∈ formErrors today schema answers) :
    e.1 ∈ schema.map Prod.fst := by
  unfold formErrors at he
  obtain ⟨p, hp, hmap⟩ := List.mem_filterMap.mp he
  cases hev : evalRule today p.2 (lookupVal answers p.1) with
  | none => simp [hev] at hmap
  | some m =>
    rw [hev] at hmap
    have he1 : e = (p.1, m) := by simpa using hmap.symm
    rw [he1]
    exact List.mem_map_of_mem Prod.fst hp

theorem mem_allFieldIds_section (sections : List FormSection) (x : String)
    (hx : x ∈ allFieldIds sections) :
    ∃ sec ∈ sections, x ∈ sectionFieldIds sec := by
  induction sections with
  | nil => simp [allFieldIds, allFields] at hx
  | cons sec rest ih =>
    rw [allFieldIds, allFields, List.map_append] at hx
    rcases List.mem_append.mp hx with h | h
    · exact ⟨sec, List.mem_cons_self _ _, h⟩
    · obtain ⟨s0, hm, hx0⟩ := ih h
      exact ⟨s0, List.mem_cons_of_mem _ hm, hx0⟩

theorem hasError_of_mem (errors : List (String × String)) (e : String × String)
    (he : e ∈ errors) : hasError errors e.1 = true := by
  unfold hasError
  exact List.any_eq_true.mpr ⟨e, he, by simp⟩

theorem firstErrorSectionAux_ne_none (errors : List (String × String))
    (sections : List FormSection)
    (h : ∃ sec ∈ sections, sectionHasErr errors sec = true) :
    firstErrorSectionAux errors sections ≠ none := by
  induction sections with
  | nil => simp at h
  | cons sec rest ih =>
    cases hc : sectionHasErr errors sec with
    | true => simp [firstErrorSectionAux, hc]
    | false =>
      obtain ⟨s0, hmem, hs0⟩ := h
      have h0 : ∃ s1 ∈ rest, sectionHasErr errors s1 = true := by
        rcases List.mem_cons.mp hmem with heq | hmem0
        · subst heq; rw [hc] at hs0; cases hs0
        · exact ⟨s0, hmem0, hs0⟩
      have hne := ih h0
      simp only [firstErrorSectionAux, hc, Bool.false_eq_true, if_false]
      intro hmap
      exact hne (Option.map_eq_none'.mp hmap)

theorem firstErrorSectionAux_spec (errors : List (String × String))
    (sections : List FormSection) (i : Nat)
    (h : firstErrorSectionAux errors sections = some i) :
    i < sections.length ∧
    sectionHasErr errors (sections.getD i { fields := [] }) = true ∧
    ∀ j, j < i → sectionHasErr errors (sections.getD j { fields := [] }) = false := by
  induction sections generalizing i with
  | nil => cases h
  | cons sec rest ih =>
    cases hc : sectionHasErr errors sec with
    | true =>
      have hi : i = 0 := by
        have := h
        simp only [firstErrorSectionAux, hc, if_true] at this
        exact (Option.some_inj.mp this).symm
      subst hi
      refine ⟨Nat.succ_pos _, by simpa using hc, ?_⟩
      intro j hj
      exact absurd hj (Nat.not_lt_zero j)
    | false =>
      simp only [firstErrorSectionAux, hc, Bool.false_eq_true, if_false] at h
      obtain ⟨i0, hi0, hieq⟩ := Option.map_eq_some'.mp h
      subst hieq
      obtain ⟨h1, h2, h3⟩ := ih i0 hi0
      refine ⟨by simpa using Nat.succ_lt_succ h1, by simpa using h2, ?_⟩
      intro j hj
      cases j with
      | zero => simpa using hc
      | succ j0 => simpa using h3 j0 (Nat.lt_of_succ_lt_succ hj)

/-! ### Structural lemmas about the compiled schema -/

theorem switchRule_base_strT (f : FormField) (h : f.type ≠ FieldType.checkbox) :
    (switchRule f).base = BaseType.strT := by
  cases hf : f.type with
  | checkbox => exact absurd hf h
  | text => simp [switchRule, hf]
  | tel => simp [switchRule, hf]
  | email => simp [switchRule, hf]
  | textarea => simp [switchRule, hf]
  | date => simp [switchRule, hf]
  | dropdown => simp [switchRule, hf]
  | radioChoice => simp [switchRule, hf]

theorem switchRule_set_required (f : FormField) (b : Bool)
    (h : f.type ≠ FieldType.checkbox) :
    switchRule { f with required := b } = switchRule f := by
  cases hf : f.type with
  | checkbox => exact absurd hf h
  | text => simp [switchRule, hf, msgOr, lengthChecks, minLenMsg, maxLenMsg]
  | tel => simp [switchRule, hf, msgOr, lengthChecks, minLenMsg, maxLenMsg]
  | email => simp [switchRule, hf, msgOr, lengthChecks, minLenMsg, maxLenMsg]
  | textarea => simp [switchRule, hf, msgOr, lengthChecks, minLenMsg, maxLenMsg]
  | date => simp [switchRule, hf, msgOr, lengthChecks, minLenMsg, maxLenMsg]
  | dropdown => simp [switchRule, hf, msgOr, lengthChecks, minLenMsg, maxLenMsg]
  | radioChoice => simp [switchRule, hf, msgOr, lengthChecks, minLenMsg, maxLenMsg]

theorem one_le_length_of_ne_empty (s : String) (h : s ≠ "") : 1 ≤ s.length := by
  cases s with
  | mk data =>
    cases data with
    | nil => exact absurd rfl h
    | cons a l => simp [String.length]

theorem dateFormatOk_ne_empty (s : String) (h : dateFormatOk s = true) : s ≠ "" := by
  intro he
  subst he
  exact absurd h (by decide)

/-- The compiled schema of a required non-checkbox field is the
non-required compiled schema's checks followed by the required check
(`.min(1)` for a `ZodString`, the non-empty refine otherwise), on the same
string base. -/
theorem compileField_required (f : FormField) (hr : f.required = true)
    (hcb : f.type ≠ FieldType.checkbox) :
    (compileField f).base = BaseType.strT ∧
    ∃ req : Check,
      (compileField f).checks = (switchRule f).checks ++ [req] ∧
      checkMsg req = msgOr f (f.label ++ " is required") ∧
      (∀ today, runCheck today req (Value.str "") = false) ∧
      (∀ today s, s ≠ "" → runCheck today req (Value.str s) = true) := by
  unfold compileField
  rw [if_pos ⟨hr, hcb⟩]
  by_cases ht : (switchRule f).typeName = "ZodString"
  · rw [if_pos ht]
    refine ⟨switchRule_base_strT f hcb, Check.minLen 1 (msgOr f (f.label ++ " is required")),
      rfl, rfl, fun _ => rfl, ?_⟩
    intro today s hs
    simpa [runCheck] using one_le_length_of_ne_empty s hs
  · rw [if_neg ht]
    refine ⟨switchRule_base_strT f hcb, Check.nonEmpty (msgOr f (f.label ++ " is required")),
      rfl, rfl, fun _ => rfl, ?_⟩
    intro today s hs
    simp [runCheck, hs]

/-- The compiled schema of a non-required non-checkbox field keeps exactly
the switch checks (the `.optional()` wrapper adds no rule). -/
theorem compileField_not_required (f : FormField) (hr : f.required = false)
    (hcb : f.type ≠ FieldType.checkbox) :
    (compileField f).base = BaseType.strT ∧
    (compileField f).checks = (switchRule f).checks := by
  unfold compileField
  rw [if_neg (by simp [hr]), if_pos ⟨hr, hcb⟩]
  by_cases hco : containsOptional (switchRule f).typeName = true
  · rw [if_neg (by simp [hco])]
    exact ⟨switchRule_base_strT f hcb, rfl⟩
  · rw [if_pos (by simp [hco])]
    exact ⟨switchRule_base_strT f hcb, rfl⟩

theorem compileField_checkbox (f : FormField) (hf : f.type = FieldType.checkbox) :
    compileField f = switchRule f := by
  unfold compileField
  rw [if_neg (by simp [hf]), if_neg (by simp [hf])]

theorem mem_lengthChecks (f : FormField) (c : Check) (hc : c ∈ lengthChecks f) :
    (∃ n, f.minLength = some n ∧ c = Check.minLen n (minLenMsg f n)) ∨
    (∃ n, f.maxLength = some n ∧ c = Check.maxLen n (maxLenMsg f n)) := by
  unfold lengthChecks at hc
  rcases List.mem_append.mp hc with h | h
  · cases hn : f.minLength with
    | none => simp [hn] at h
    | some n =>
      left
      exact ⟨n, rfl, by simpa [hn] using h⟩
  · cases hn : f.maxLength with
    | none => simp [hn] at h
    | some n =>
      right
      exact ⟨n, rfl, by simpa [hn] using h⟩

/-- Evaluation of the two date checks: pass iff format, calendar validity
and the not-in-the-future comparison all hold; a format failure reports
the format message first. -/
theorem firstFailure_date_prefix (today : SimpleDate) (m1 m2 : String)
    (tail : List Check) (s : String) :
    (firstFailure today (Check.dateFmt m1 :: Check.dateNotFuture m2 :: tail)
        (Value.str s) = none ↔
      dateFormatOk s = true ∧ validDate (parseDate s) = true ∧
      SimpleDate.le (parseDate s) today = true ∧
      firstFailure today tail (Value.str s) = none) ∧
    (dateFormatOk s = false →
      firstFailure today (Check.dateFmt m1 :: Check.dateNotFuture m2 :: tail)
        (Value.str s) = some m1) := by
  cases h1 : dateFormatOk s with
  | false =>
    constructor
    · simp [firstFailure, runCheck, checkMsg, h1]
    · intro _
      simp [firstFailure, runCheck, checkMsg, h1]
  | true =>
    constructor
    · cases h2 : validDate (parseDate s) with
      | false => simp [firstFailure, runCheck, checkMsg, h1, h2]
      | true =>
        cases h3 : SimpleDate.le (parseDate s) today with
        | false => simp [firstFailure, runCheck, checkMsg, h1, h2, h3]
        | true => simp [firstFailure, runCheck, checkMsg, h1, h2, h3]
    · intro hcon
      exact absurd hcon (by simp)

/-! ### The claims -/

/-- C3: for every date-type field, the compiled rule accepts a string
exactly when it matches `YYYY-MM-DD`, parses to a valid calendar date and
is not after today (inclusive); a string failing the format is rejected
with the format message, i.e. the format check decides before the
future-date check is reached. -/
theorem date_rule_accepts_iff (f : FormField) (today : SimpleDate) (s : String)
    (hf : f.type = FieldType.date) :
    (evalRule today (compileField f) (Value.str s) = none ↔
      dateFormatOk s = true ∧ validDate (parseDate s) = true ∧
      SimpleDate.le (parseDate s) today = true) ∧
    (dateFormatOk s = false →
      evalRule today (compileField f) (Value.str s) =
        some (msgOr f "Invalid date format (YYYY-MM-DD)")) := by
  have hcb : f.type ≠ FieldType.checkbox := by rw [hf]; intro hcon; cases hcon
  have hswc : (switchRule f).checks =
      [Check.dateFmt (msgOr f "Invalid date format (YYYY-MM-DD)"),
       Check.dateNotFuture (msgOr f (f.label ++ " cannot be a future date"))] := by
    simp [switchRule, hf]
  cases hr : f.required with
  | true =>
    obtain ⟨hb, req, hch, hmsg, hfail0, hpass⟩ := compileField_required f hr hcb
    rw [evalRule_str today _ s hb, hch, hswc]
    simp only [List.cons_append, List.nil_append]
    have hlem := firstFailure_date_prefix today
      (msgOr f "Invalid date format (YYYY-MM-DD)")
      (msgOr f (f.label ++ " cannot be a future date")) [req] s
    constructor
    · rw [hlem.1]
      constructor
      · rintro ⟨h1, h2, h3, _⟩
        exact ⟨h1, h2, h3⟩
      · rintro ⟨h1, h2, h3⟩
        refine ⟨h1, h2, h3, ?_⟩
        have hs := dateFormatOk_ne_empty s h1
        simp [firstFailure, hpass today s hs]
    · exact hlem.2
  | false =>
    obtain ⟨hb, hch⟩ := compileField_not_required f hr hcb
    rw [evalRule_str today _ s hb, hch, hswc]
    have hlem := firstFailure_date_prefix today
      (msgOr f "Invalid date format (YYYY-MM-DD)")
      (msgOr f (f.label ++ " cannot be a future date")) [] s
    constructor
    · rw [hlem.1]
      simp [firstFailure]
    · exact hlem.2

/-- C3 witness: a concrete date field accepts today, rejects a future
date, and reports the format message on `01-01-2099`. -/
theorem date_rule_accepts_iff_witness :
    evalRule (SimpleDate.mk 2025 10 12)
      (compileField { fieldId := "dob", type := FieldType.date, label := "DOB",
                      required := true, validationMessage := none,
                      minLength := none, maxLength := none })
      (Value.str "2025-10-12") = none ∧
    evalRule (SimpleDate.mk 2025 10 12)
      (compileField { fieldId := "dob", type := FieldType.date, label := "DOB",
                      required := true, validationMessage := none,
                      minLength := none, maxLength := none })
      (Value.str "2099-01-01") ≠ none ∧
    evalRule (SimpleDate.mk 2025 10 12)
      (compileField { fieldId := "dob", type := FieldType.date, label := "DOB",
                      required := true, validationMessage := none,
                      minLength := none, maxLength := none })
      (Value.str "01-01-2099") = some "Invalid date format (YYYY-MM-DD)" := by
  refine ⟨?_, ?_, ?_⟩
  · exact (date_rule_accepts_iff _ _ _ rfl).1.mpr (by decide)
  · intro h
    exact absurd ((date_rule_accepts_iff _ _ _ rfl).1.mp h).2.2 (by decide)
  · exact (date_rule_accepts_iff _ _ _ rfl).2 (by decide)

/-- C4 counterexample: a field declaring `validationMessage = "custom"`
still reports the built-in message when its minLength rule fails. -/
theorem minLength_ignores_validationMessage_cex :
    evalRule (SimpleDate.mk 2025 10 12)
      (compileField { fieldId := "name", type := FieldType.text, label := "Name",
                      required := false, validationMessage := some "custom",
                      minLength := some 5, maxLength := none })
      (Value.str "ab") = some "Name must be at least 5 characters" ∧
    "Name must be at least 5 characters" ≠ "custom" := by
  exact ⟨by decide, by decide⟩

/-- C4 (amended): when a field declares a validationMessage, every
compiled rule of that field reports it on failure except the minLength
and maxLength rules, which always carry the built-in length messages. -/
theorem validationMessage_precedence (f : FormField) (m : String) (c : Check)
    (hm : f.validationMessage = some m) (hc : c ∈ (compileField f).checks) :
    checkMsg c = m ∨
    (∃ n, f.minLength = some n ∧ c = Check.minLen n (minLenMsg f n)) ∨
    (∃ n, f.maxLength = some n ∧ c = Check.maxLen n (maxLenMsg f n)) := by
  by_cases hcb : f.type = FieldType.checkbox
  · rw [compileField_checkbox f hcb] at hc
    cases hr : f.required with
    | true =>
      have hsw : (switchRule f).checks =
          [Check.mustBeTrue (msgOr f (f.label ++ " is required"))] := by
        simp [switchRule, hcb, hr]
      rw [hsw] at hc
      left
      have hceq : c = Check.mustBeTrue (msgOr f (f.label ++ " is required")) := by
        simpa using hc
      rw [hceq]
      simp [checkMsg, msgOr, hm]
    | false =>
      have hsw : (switchRule f).checks = [] := by simp [switchRule, hcb, hr]
      rw [hsw] at hc
      cases hc
  · have hmem : c ∈ (switchRule f).checks ∨
        checkMsg c = msgOr f (f.label ++ " is required") := by
      cases hr : f.required with
      | true =>
        obtain ⟨_, req, hch, hmsg, _, _⟩ := compileField_required f hr hcb
        rw [hch] at hc
        rcases List.mem_append.mp hc with h | h
        · left; exact h
        · right
          have hceq : c = req := by simpa using h
          rw [hceq, hmsg]
      | false =>
        obtain ⟨_, hch⟩ := compileField_not_required f hr hcb
        rw [hch] at hc
        left; exact hc
    rcases hmem with hmem | hmem
    · cases hf : f.type with
      | checkbox => exact absurd hf hcb
      | text =>
        have : (switchRule f).checks = lengthChecks f := by simp [switchRule, hf]
        rw [this] at hmem
        right
        exact mem_lengthChecks f c hmem
      | textarea =>
        have : (switchRule f).checks = lengthChecks f := by simp [switchRule, hf]
        rw [this] at hmem
        right
        exact mem_lengthChecks f c hmem
      | email =>
        have : (switchRule f).checks =
            [Check.emailFmt (msgOr f "Invalid email address")] := by
          simp [switchRule, hf]
        rw [this] at hmem
        left
        have hceq : c = Check.emailFmt (msgOr f "Invalid email address") := by
          simpa using hmem
        rw [hceq]
        simp [checkMsg, msgOr, hm]
      | tel =>
        have : (switchRule f).checks =
            Check.telFmt (msgOr f "Invalid phone number format") :: lengthChecks f := by
          simp [switchRule, hf]
        rw [this] at hmem
        rcases List.mem_cons.mp hmem with h | h
        · left
          rw [h]
          simp [checkMsg, msgOr, hm]
        · right
          exact mem_lengthChecks f c h
      | date =>
        have : (switchRule f).checks =
            [Check.dateFmt (msgOr f "Invalid date format (YYYY-MM-DD)"),
             Check.dateNotFuture (msgOr f (f.label ++ " cannot be a future date"))] := by
          simp [switchRule, hf]
        rw [this] at hmem
        left
        rcases List.mem_cons.mp hmem with h | h
        · rw [h]; simp [checkMsg, msgOr, hm]
        · have hceq : c = Check.dateNotFuture (msgOr f (f.label ++ " cannot be a future date")) := by
            simpa using h
          rw [hceq]; simp [checkMsg, msgOr, hm]
      | dropdown =>
        have : (switchRule f).checks = [] := by simp [switchRule, hf]
        rw [this] at hmem
        cases hmem
      | radioChoice =>
        have : (switchRule f).checks = [] := by simp [switchRule, hf]
        rw [this] at hmem
        cases hmem
    · left
      rw [hmem]
      simp [msgOr, hm]

/-- C4 witness: the email rule of a field with `validationMessage =
"custom"` carries the custom message. -/
theorem validationMessage_precedence_witness :
    checkMsg (Check.emailFmt "custom") = "custom" := by
  rcases validationMessage_precedence
      { fieldId := "e", type := FieldType.email, label := "Email",
        required := true, validationMessage := some "custom",
        minLength := none, maxLength := none } "custom"
      (Check.emailFmt "custom") rfl (by decide) with h | h | h
  · exact h
  · obtain ⟨n, hn, _⟩ := h
    simp at hn
  · obtain ⟨n, hn, _⟩ := h
    simp at hn

/-- C5 (code-bug evidence): a non-required email field rejects the empty
string — exactly the value the default synthesizer assigns to it — with
the email format message, while the genuinely absent value passes: the
`.optional()` wrapper only admits absence, never the empty string. -/
theorem optional_email_rejects_empty :
    defaultFor { fieldId := "email", type := FieldType.email, label := "Email",
                 required := false, validationMessage := none,
                 minLength := none, maxLength := none } = Value.str "" ∧
    evalRule (SimpleDate.mk 2025 10 12)
      (compileField { fieldId := "email", type := FieldType.email, label := "Email",
                      required := false, validationMessage := none,
                      minLength := none, maxLength := none })
      (Value.str "") = some "Invalid email address" ∧
    evalRule (SimpleDate.mk 2025 10 12)
      (compileField { fieldId := "email", type := FieldType.email, label := "Email",
                      required := false, validationMessage := none,
                      minLength := none, maxLength := none })
      Value.undef = none := by
  exact ⟨rfl, by decide, by decide⟩

/-- C6 counterexample: a required email field without a validationMessage
rejects the empty string with the email format message, not with the
claimed default `"Email is required"`. -/
theorem required_empty_message_cex :
    evalRule (SimpleDate.mk 2025 10 12)
      (compileField { fieldId := "e", type := FieldType.email, label := "Email",
                      required := true, validationMessage := none,
                      minLength := none, maxLength := none })
      (Value.str "") = some "Invalid email address" ∧
    "Invalid email address" ≠ "Email is required" := by
  exact ⟨by decide, by decide⟩

/-- C6 (amended): every required non-checkbox field rejects the empty
string (the message being that of the first failing rule, which need not
be the required-rule message), and any non-empty string that passes the
field's other constraints — its compiled rules with `required` dropped —
also passes the full rule. -/
theorem required_empty_fails (f : FormField) (today : SimpleDate)
    (hr : f.required = true) (hcb : f.type ≠ FieldType.checkbox) :
    evalRule today (compileField f) (Value.str "") ≠ none ∧
    ∀ s, s ≠ "" →
      evalRule today (compileField { f with required := false }) (Value.str s) = none →
      evalRule today (compileField f) (Value.str s) = none := by
  obtain ⟨hb, req, hch, hmsg, hfail, hpass⟩ := compileField_required f hr hcb
  constructor
  · rw [evalRule_str today _ _ hb, hch]
    apply firstFailure_ne_none
    exact ⟨req, List.mem_append_right _ (List.mem_singleton_self req), hfail today⟩
  · intro s hs hopt
    obtain ⟨hb2, hch2⟩ := compileField_not_required { f with required := false } rfl hcb
    rw [evalRule_str today _ s hb2, hch2, switchRule_set_required f false hcb] at hopt
    rw [evalRule_str today _ s hb, hch, firstFailure_append, hopt]
    simp [firstFailure, hpass today s hs]

/-- C6 witness: a concrete required text field rejects the empty string
and accepts a non-empty one. -/
theorem required_empty_fails_witness :
    evalRule (SimpleDate.mk 2025 10 12)
      (compileField { fieldId := "n", type := FieldType.text, label := "Name",
                      required := true, validationMessage := none,
                      minLength := none, maxLength := none })
      (Value.str "") ≠ none ∧
    evalRule (SimpleDate.mk 2025 10 12)
      (compileField { fieldId := "n", type := FieldType.text, label := "Name",
                      required := true, validationMessage := none,
                      minLength := none, maxLength := none })
      (Value.str "Ada") = none := by
  constructor
  · exact (required_empty_fails _ _ rfl (by decide)).1
  · exact (required_empty_fails _ _ rfl (by decide)).2 "Ada" (by decide) (by decide)

/-! ### Key-structure lemmas for the defaults and schema maps -/

theorem keys_upsert_mem {α : Type} (m : List (String × α)) (k : String) (v : α)
    (h : k ∈ m.map Prod.fst) :
    (upsert m k v).map Prod.fst = m.map Prod.fst := by
  induction m with
  | nil => cases h
  | cons hd tl ih =>
    obtain ⟨k0, v0⟩ := hd
    rw [upsert_cons]
    by_cases h0 : k0 = k
    · rw [if_pos h0]
      simp
    · rw [if_neg h0]
      have hk : k ∈ tl.map Prod.fst := by
        rw [List.map_cons] at h
        rcases List.mem_cons.mp h with hcase | hcase
        · exact absurd hcase.symm h0
        · exact hcase
      simp [ih hk]

theorem keys_upsert_nodup {α : Type} (m : List (String × α)) (k : String) (v : α)
    (h : (m.map Prod.fst).Nodup) :
    ((upsert m k v).map Prod.fst).Nodup := by
  by_cases hk : k ∈ m.map Prod.fst
  · rw [keys_upsert_mem m k v hk]
    exact h
  · rw [upsert_of_not_mem m k v hk]
    simp only [List.map_append]
    rw [List.nodup_append]
    refine ⟨h, by simp, ?_⟩
    intro x hx
    simp only [List.map_cons, List.map_nil, List.mem_cons, List.not_mem_nil] at *
    intro hxk
    rcases hxk with hxk | hxk
    · exact hk (hxk ▸ hx)
    · exact hxk

theorem keys_foldUpsert_nodup {α : Type} (g : FormField → α) (fields : List FormField)
    (init : List (String × α)) (h : (init.map Prod.fst).Nodup) :
    ((foldUpsert g fields init).map Prod.fst).Nodup := by
  induction fields generalizing init with
  | nil => simpa [foldUpsert] using h
  | cons f rest ih =>
    have hstep : foldUpsert g (f :: rest) init =
        foldUpsert g rest (upsert init f.fieldId (g f)) := by
      simp [foldUpsert]
    rw [hstep]
    exact ih _ (keys_upsert_nodup init f.fieldId (g f) h)

theorem keys_foldUpsert_of_nodup {α : Type} (g : FormField → α) (fields : List FormField)
    (init : List (String × α))
    (h : (init.map Prod.fst ++ fields.map (fun f => f.fieldId)).Nodup) :
    (foldUpsert g fields init).map Prod.fst =
      init.map Prod.fst ++ fields.map (fun f => f.fieldId) := by
  induction fields generalizing init with
  | nil => simp [foldUpsert]
  | cons f rest ih =>
    have hstep : foldUpsert g (f :: rest) init =
        foldUpsert g rest (upsert init f.fieldId (g f)) := by
      simp [foldUpsert]
    have hd := (List.nodup_append.mp h).2.2
    have hnotmem : f.fieldId ∉ init.map Prod.fst := by
      intro hmem
      exact hd hmem (by simp)
    rw [hstep, ih (upsert init f.fieldId (g f)) ?hnd]
    · rw [upsert_of_not_mem init f.fieldId (g f) hnotmem]
      simp
    case hnd =>
      rw [upsert_of_not_mem init f.fieldId (g f) hnotmem]
      simp only [List.map_append, List.map_cons, List.map_nil]
      have : (init.map Prod.fst ++ [f.fieldId]) ++ rest.map (fun x => x.fieldId) =
          init.map Prod.fst ++ f.fieldId :: rest.map (fun x => x.fieldId) := by
        simp
      rw [this]
      simpa using h

theorem find?_eq_of_nodup (fields : List FormField) (f : FormField)
    (hnd : (fields.map (fun x => x.fieldId)).Nodup) (hmem : f ∈ fields) :
    fields.find? (fun x => x.fieldId == f.fieldId) = some f := by
  induction fields with
  | nil => cases hmem
  | cons g rest ih =>
    simp only [List.map_cons, List.nodup_cons] at hnd
    by_cases hg : g.fieldId = f.fieldId
    · have hfg : g = f := by
        rcases List.mem_cons.mp hmem with h | h
        · exact h.symm
        · exfalso
          have hmap : f.fieldId ∈ rest.map (fun x => x.fieldId) :=
            List.mem_map_of_mem _ h
          rw [← hg] at hmap
          exact hnd.1 hmap
      rw [List.find?_cons_of_pos _ (by simp [hg]), hfg]
    · have hf : f ∈ rest := by
        rcases List.mem_cons.mp hmem with h | h
        · exact absurd (by rw [h]) hg
        · exact h
      rw [List.find?_cons_of_neg _ (by simp [hg])]
      exact ih hnd.2 hf

theorem mem_keys_of_getEntry {α : Type} (m : List (String × α)) (k : String) (v : α)
    (h : getEntry m k = some v) : k ∈ m.map Prod.fst := by
  unfold getEntry at h
  obtain ⟨p, hfind, hp⟩ := Option.map_eq_some'.mp h
  have hk : p.1 = k := by simpa using List.find?_some hfind
  exact hk ▸ List.mem_map_of_mem Prod.fst (List.mem_of_find?_eq_some hfind)

theorem find?_last_occurrence (pre post : List FormField) (f : FormField) (k : String)
    (hk : f.fieldId = k) (hpost : k ∉ post.map (fun x => x.fieldId)) :
    (pre ++ f :: post).reverse.find? (fun x => x.fieldId == k) = some f := by
  rw [List.reverse_append]
  rw [show (f :: post).reverse = post.reverse ++ [f] by simp]
  rw [List.append_assoc, List.find?_append]
  have hnone : post.reverse.find? (fun x => x.fieldId == k) = none := by
    rw [List.find?_eq_none]
    intro a ha
    simp only [beq_iff_eq]
    intro hak
    exact hpost (hak ▸ List.mem_map_of_mem _ (List.mem_reverse.mp ha))
  rw [hnone, List.singleton_append, List.find?_cons_of_pos _ (by simp [hk])]
  simp

/-- C7: under the descriptor invariant that fieldIds are unique across the
form, the default synthesizer yields exactly one entry per fieldId, in
descriptor order; checkbox fields map to `false` and all others to `""`. -/
theorem generateDefaultValues_spec (form : Form)
    (h : (allFieldIds form.sections).Nodup) :
    (generateDefaultValues form.sections).map Prod.fst = allFieldIds form.sections ∧
    ∀ f ∈ allFields form.sections,
      lookupVal (generateDefaultValues form.sections) f.fieldId =
        (if f.type = FieldType.checkbox then Value.bool false else Value.str "") := by
  have hmap : (allFieldIds form.sections) =
      (allFields form.sections).map (fun x => x.fieldId) := rfl
  constructor
  · rw [generateDefaultValues_eq]
    have hfold := keys_foldUpsert_of_nodup defaultFor (allFields form.sections) []
      (by simpa using (hmap ▸ h))
    simpa [allFieldIds] using hfold
  · intro f hf
    rw [generateDefaultValues_eq]
    unfold lookupVal
    rw [getEntry_foldUpsert]
    have hfind : (allFields form.sections).reverse.find?
        (fun x => x.fieldId == f.fieldId) = some f := by
      apply find?_eq_of_nodup
      · rw [List.map_reverse]
        exact List.nodup_reverse.mpr (hmap ▸ h)
      · exact List.mem_reverse.mpr hf
    rw [hfind]
    rfl

/-- C7 witness: a concrete two-section form. -/
theorem generateDefaultValues_spec_witness :
    (generateDefaultValues [FormSection.mk
        [FormField.mk "first" FieldType.text "First" true none none none,
         FormField.mk "agree" FieldType.checkbox "Agree" false none none none]]).map
      Prod.fst =
      allFieldIds [FormSection.mk
        [FormField.mk "first" FieldType.text "First" true none none none,
         FormField.mk "agree" FieldType.checkbox "Agree" false none none none]] ∧
    lookupVal (generateDefaultValues [FormSection.mk
        [FormField.mk "first" FieldType.text "First" true none none none,
         FormField.mk "agree" FieldType.checkbox "Agree" false none none none]])
      "agree" = Value.bool false := by
  constructor
  · exact (generateDefaultValues_spec
      (Form.mk [FormSection.mk
        [FormField.mk "first" FieldType.text "First" true none none none,
         FormField.mk "agree" FieldType.checkbox "Agree" false none none none]])
      (by decide)).1
  · exact (generateDefaultValues_spec
      (Form.mk [FormSection.mk
        [FormField.mk "first" FieldType.text "First" true none none none,
         FormField.mk "agree" FieldType.checkbox "Agree" false none none none]])
      (by decide)).2
      (FormField.mk "agree" FieldType.checkbox "Agree" false none none none)
      (by decide)

/-- C10: when a fieldId occurs several times, the schema shape and the
defaults map silently keep exactly one entry for it — the rule and default
of the LAST field with that id in section-then-field order. -/
theorem duplicate_fieldId_last_wins (sections : List FormSection) (k : String)
    (pre post : List FormField) (f : FormField)
    (hsplit : allFields sections = pre ++ f :: post)
    (hk : f.fieldId = k) (hpost : k ∉ post.map (fun x => x.fieldId)) :
    lookupRule (buildSchema sections) k = some (compileField f) ∧
    lookupVal (generateDefaultValues sections) k = defaultFor f ∧
    ((buildSchema sections).map Prod.fst).count k = 1 := by
  have hfind : (allFields sections).reverse.find? (fun x => x.fieldId == k) = some f := by
    rw [hsplit]
    exact find?_last_occurrence pre post f k hk hpost
  have hrule : lookupRule (buildSchema sections) k = some (compileField f) := by
    unfold lookupRule
    rw [buildSchema_eq, getEntry_foldUpsert, hfind]
  refine ⟨hrule, ?_, ?_⟩
  · rw [generateDefaultValues_eq]
    unfold lookupVal
    rw [getEntry_foldUpsert, hfind]
    rfl
  · have hnd : ((buildSchema sections).map Prod.fst).Nodup := by
      rw [buildSchema_eq]
      exact keys_foldUpsert_nodup compileField (allFields sections) [] (by simp)
    have hmem : k ∈ (buildSchema sections).map Prod.fst :=
      mem_keys_of_getEntry _ k (compileField f) hrule
    exact List.count_eq_one_of_mem hnd hmem

/-- C10 witness: two fields named "dup" — a required text field then a
checkbox — give the checkbox rule and the checkbox default. -/
theorem duplicate_fieldId_last_wins_witness :
    lookupRule (buildSchema [FormSection.mk
        [FormField.mk "dup" FieldType.text "DupText" true none none none],
      FormSection.mk
        [FormField.mk "dup" FieldType.checkbox "DupBox" false none none none]]) "dup" =
      some (compileField (FormField.mk "dup" FieldType.checkbox "DupBox" false none none none)) ∧
    lookupVal (generateDefaultValues [FormSection.mk
        [FormField.mk "dup" FieldType.text "DupText" true none none none],
      FormSection.mk
        [FormField.mk "dup" FieldType.checkbox "DupBox" false none none none]]) "dup" =
      Value.bool false := by
  have h := duplicate_fieldId_last_wins
    [FormSection.mk [FormField.mk "dup" FieldType.text "DupText" true none none none],
     FormSection.mk [FormField.mk "dup" FieldType.checkbox "DupBox" false none none none]]
    "dup"
    [FormField.mk "dup" FieldType.text "DupText" true none none none]
    []
    (FormField.mk "dup" FieldType.checkbox "DupBox" false none none none)
    (by decide) rfl (by decide)
  exact ⟨h.1, h.2.1⟩

/-! ### Engine lemmas -/

theorem all_congr_mem {α : Type} (l : List α) (f g : α → Bool)
    (h : ∀ x ∈ l, f x = g x) : l.all f = l.all g := by
  induction l with
  | nil => rfl
  | cons a t ih =>
    simp only [List.all_cons]
    rw [h a (List.mem_cons_self a t), ih (fun x hx => h x (List.mem_cons_of_mem a hx))]

theorem handleNext_advances (today : SimpleDate) (form : Form) (st : EngineState)
    (hvalid : formErrors today (buildSchema form.sections) st.answers = [])
    (hlt : st.sectionIndex < form.sections.length - 1) :
    handleNext today form st = { st with sectionIndex := st.sectionIndex + 1 } := by
  have hcond : ((sectionFieldIds (currentSection form st)).all
      (fun fid => (fieldError today (buildSchema form.sections) st.answers fid).isNone) = true ∧
      st.sectionIndex < form.sections.length - 1) := by
    refine ⟨?_, hlt⟩
    rw [List.all_eq_true]
    intro fid _
    rw [fieldError_eq_none today _ _ fid hvalid]
    rfl
  simp only [handleNext]
  rw [if_pos hcond]

theorem onSubmit_success (today : SimpleDate) (form : Form) (st : EngineState)
    (hvalid : formErrors today (buildSchema form.sections) st.answers = []) :
    onSubmit today form st =
      { state := { sectionIndex := 0, answers := generateDefaultValues form.sections },
        submitted := some st.answers } := by
  simp only [onSubmit]
  rw [if_pos hvalid]

theorem nextN_reaches (today : SimpleDate) (form : Form) (a : List (String × Value))
    (hvalid : formErrors today (buildSchema form.sections) a = []) :
    ∀ k i, i + k = form.sections.length - 1 →
      nextN today form k { sectionIndex := i, answers := a } =
        { sectionIndex := form.sections.length - 1, answers := a } := by
  intro k
  induction k with
  | zero =>
    intro i hi
    have hi0 : i = form.sections.length - 1 := by omega
    rw [hi0]
    rfl
  | succ k0 ih =>
    intro i hi
    have hlt : i < form.sections.length - 1 := by omega
    simp only [nextN]
    rw [handleNext_advances today form { sectionIndex := i, answers := a } hvalid hlt]
    exact ih (i + 1) (by omega)

/-! ### Engine claims -/

/-- C1: when submit-time validation fails, nothing is handed to the
submission sink, the answers are kept, and the engine ends on the index of
the first section (ascending order, first match) containing an invalid
field — whether or not that differs from the current index. -/
theorem submit_failure_navigates_to_first_invalid
    (today : SimpleDate) (form : Form) (st : EngineState)
    (herr : formErrors today (buildSchema form.sections) st.answers ≠ []) :
    (onSubmit today form st).submitted = none ∧
    (onSubmit today form st).state.answers = st.answers ∧
    (onSubmit today form st).state.sectionIndex < form.sections.length ∧
    sectionHasErr (formErrors today (buildSchema form.sections) st.answers)
      (form.sections.getD (onSubmit today form st).state.sectionIndex { fields := [] })
      = true ∧
    ∀ j, j < (onSubmit today form st).state.sectionIndex →
      sectionHasErr (formErrors today (buildSchema form.sections) st.answers)
        (form.sections.getD j { fields := [] }) = false := by
  obtain ⟨e, he⟩ :=
    List.exists_mem_of_ne_nil (formErrors today (buildSchema form.sections) st.answers) herr
  have hkey : e.1 ∈ (buildSchema form.sections).map Prod.fst :=
    mem_formErrors_key today _ st.answers e he
  have hid : e.1 ∈ allFieldIds form.sections := mem_buildSchema_keys _ _ hkey
  obtain ⟨sec, hsecmem, hfid⟩ := mem_allFieldIds_section _ _ hid
  have hsecerr : sectionHasErr (formErrors today (buildSchema form.sections) st.answers)
      sec = true := by
    unfold sectionHasErr
    exact List.any_eq_true.mpr ⟨e.1, hfid, hasError_of_mem _ e he⟩
  have hsome : firstErrorSectionAux (formErrors today (buildSchema form.sections) st.answers)
      form.sections ≠ none :=
    firstErrorSectionAux_ne_none _ _ ⟨sec, hsecmem, hsecerr⟩
  obtain ⟨i, hi⟩ := Option.ne_none_iff_exists'.mp hsome
  obtain ⟨hilt, hihas, hifirst⟩ := firstErrorSectionAux_spec _ _ i hi
  have hos : (onSubmit today form st).submitted = none ∧
      (onSubmit today form st).state.answers = st.answers ∧
      (onSubmit today form st).state.sectionIndex = i := by
    by_cases hne : i = st.sectionIndex
    · simp [onSubmit, herr, hi, hne]
    · simp [onSubmit, herr, hi, hne]
  refine ⟨hos.1, hos.2.1, ?_, ?_, ?_⟩
  · rw [hos.2.2]; exact hilt
  · rw [hos.2.2]; exact hihas
  · rw [hos.2.2]; exact hifirst

/-- C1 witness: with the invalid field in section 0 and the engine on
section 1, submit hands nothing to the sink and moves to section 0. -/
theorem submit_failure_witness :
    (onSubmit (SimpleDate.mk 2025 10 12) wForm
      { sectionIndex := 1, answers := wBad }).submitted = none ∧
    (onSubmit (SimpleDate.mk 2025 10 12) wForm
      { sectionIndex := 1, answers := wBad }).state.sectionIndex <
      wForm.sections.length := by
  have h := submit_failure_navigates_to_first_invalid (SimpleDate.mk 2025 10 12) wForm
    { sectionIndex := 1, answers := wBad } (by decide)
  exact ⟨h.1, h.2.2.1⟩

/-- C2: navigate-next never advances while a field of the current section
is invalid, and its decision reads only the answers at the current
section's fieldIds: two answer maps agreeing there produce the same
transition. -/
theorem navigateNext_gating (today : SimpleDate) (form : Form) (st : EngineState)
    (a2 : List (String × Value)) :
    ((∃ fid ∈ sectionFieldIds (currentSection form st),
        fieldError today (buildSchema form.sections) st.answers fid ≠ none) →
      handleNext today form st = st) ∧
    ((∀ fid ∈ sectionFieldIds (currentSection form st),
        lookupVal st.answers fid = lookupVal a2 fid) →
      (handleNext today form st).sectionIndex =
        (handleNext today form { st with answers := a2 }).sectionIndex) := by
  constructor
  · rintro ⟨fid, hmem, hne⟩
    have hcond : ¬ ((sectionFieldIds (currentSection form st)).all
        (fun fid => (fieldError today (buildSchema form.sections) st.answers fid).isNone)
          = true ∧
        st.sectionIndex < form.sections.length - 1) := by
      rintro ⟨hvalid, _⟩
      exact hne (by simpa using List.all_eq_true.mp hvalid fid hmem)
    simp only [handleNext]
    rw [if_neg hcond]
  · intro hagree
    have heq : ∀ fid ∈ sectionFieldIds (currentSection form st),
        (fieldError today (buildSchema form.sections) st.answers fid).isNone =
        (fieldError today (buildSchema form.sections) a2 fid).isNone := by
      intro fid hmem
      unfold fieldError
      cases lookupRule (buildSchema form.sections) fid with
      | none => rfl
      | some r => rw [hagree fid hmem]
    have hvalEq := all_congr_mem (sectionFieldIds (currentSection form st)) _ _ heq
    simp only [handleNext]
    have hsec : currentSection form { st with answers := a2 } = currentSection form st := rfl
    rw [hsec, ← hvalEq]
    by_cases hcond : ((sectionFieldIds (currentSection form st)).all
        (fun fid => (fieldError today (buildSchema form.sections) st.answers fid).isNone)
          = true ∧
        st.sectionIndex < form.sections.length - 1)
    · rw [if_pos hcond, if_pos (by simpa using hcond)]
    · rw [if_neg hcond, if_neg (by simpa using hcond)]

/-- C2 witness: an invalid current section blocks Next; answers agreeing
on section 0 (one valid, one invalid in section 1) transition alike. -/
theorem navigateNext_gating_witness :
    handleNext (SimpleDate.mk 2025 10 12) wForm { sectionIndex := 0, answers := wBad } =
      { sectionIndex := 0, answers := wBad } ∧
    (handleNext (SimpleDate.mk 2025 10 12) wForm
        { sectionIndex := 0, answers := wGood }).sectionIndex =
      (handleNext (SimpleDate.mk 2025 10 12) wForm
        { sectionIndex := 0, answers := wGood2 }).sectionIndex := by
  constructor
  · exact (navigateNext_gating (SimpleDate.mk 2025 10 12) wForm
      { sectionIndex := 0, answers := wBad } wBad).1 ⟨"first", by decide, by decide⟩
  · exact (navigateNext_gating (SimpleDate.mk 2025 10 12) wForm
      { sectionIndex := 0, answers := wGood } wGood2).2 (by decide)

/-- C9: `0 <= sectionIndex < sectionCount` holds initially and is
preserved by navigate-next, navigate-prev and submit; navigate-prev at
index 0 is a no-op and navigate-next at the last index stays there. -/
theorem section_index_invariant (today : SimpleDate) (form : Form) (st : EngineState)
    (hne : form.sections ≠ []) (hst : st.sectionIndex < form.sections.length) :
    (initialState form).sectionIndex < form.sections.length ∧
    (handleNext today form st).sectionIndex < form.sections.length ∧
    (handlePrev st).sectionIndex < form.sections.length ∧
    (onSubmit today form st).state.sectionIndex < form.sections.length ∧
    (st.sectionIndex = 0 → handlePrev st = st) ∧
    (st.sectionIndex = form.sections.length - 1 →
      (handleNext today form st).sectionIndex = form.sections.length - 1) := by
  have hlen : 0 < form.sections.length := List.length_pos.mpr hne
  refine ⟨hlen, ?_, ?_, ?_, ?_, ?_⟩
  · simp only [handleNext]
    by_cases hcond : ((sectionFieldIds (currentSection form st)).all
        (fun fid => (fieldError today (buildSchema form.sections) st.answers fid).isNone)
          = true ∧
        st.sectionIndex < form.sections.length - 1)
    · rw [if_pos hcond]
      have := hcond.2
      show st.sectionIndex + 1 < form.sections.length
      omega
    · rw [if_neg hcond]
      exact hst
  · simp only [handlePrev]
    by_cases h0 : st.sectionIndex > 0
    · rw [if_pos h0]
      show st.sectionIndex - 1 < form.sections.length
      omega
    · rw [if_neg h0]
      exact hst
  · by_cases herr : formErrors today (buildSchema form.sections) st.answers = []
    · rw [onSubmit_success today form st herr]
      exact hlen
    · simp only [onSubmit]
      rw [if_neg herr]
      cases haux : firstErrorSectionAux
          (formErrors today (buildSchema form.sections) st.answers) form.sections with
      | none => simpa using hst
      | some i =>
        have hilt := (firstErrorSectionAux_spec _ _ i haux).1
        by_cases hni : i ≠ st.sectionIndex
        · simp [haux, hni]
          exact hilt
        · simp [haux, hni]
          exact hst
  · intro h0
    simp [handlePrev, h0]
  · intro hlast
    simp only [handleNext]
    rw [if_neg]
    · exact hlast
    · rintro ⟨_, hlt⟩
      omega

/-- C9 witness: concrete checks of the invariant and both idempotence
properties on the two-section fixture form. -/
theorem section_index_invariant_witness :
    handlePrev { sectionIndex := 0, answers := wGood } =
      { sectionIndex := 0, answers := wGood } ∧
    (handleNext (SimpleDate.mk 2025 10 12) wForm
      { sectionIndex := 1, answers := wGood }).sectionIndex =
      wForm.sections.length - 1 := by
  constructor
  · exact (section_index_invariant (SimpleDate.mk 2025 10 12) wForm
      { sectionIndex := 0, answers := wGood } (by decide) (by decide)).2.2.2.2.1 rfl
  · exact (section_index_invariant (SimpleDate.mk 2025 10 12) wForm
      { sectionIndex := 1, answers := wGood } (by decide) (by decide)).2.2.2.2.2 rfl

/-- C8: round trip — from section 0 with answers valid everywhere,
navigate-next steps through every section to the last, and submit then
hands exactly those answers to the sink and resets the engine to its
initial state (section 0, synthesized defaults). -/
theorem round_trip (today : SimpleDate) (form : Form) (a : List (String × Value))
    (_hne : form.sections ≠ [])
    (hvalid : formErrors today (buildSchema form.sections) a = []) :
    nextN today form (form.sections.length - 1) { sectionIndex := 0, answers := a } =
      { sectionIndex := form.sections.length - 1, answers := a } ∧
    onSubmit today form { sectionIndex := form.sections.length - 1, answers := a } =
      { state := initialState form, submitted := some a } := by
  constructor
  · exact nextN_reaches today form a hvalid (form.sections.length - 1) 0 (by omega)
  · rw [onSubmit_success today form _ hvalid]
    rfl

/-- C8 witness: the concrete two-section form filled with valid answers
walks to the last section and submits exactly those answers. -/
theorem round_trip_witness :
    nextN (SimpleDate.mk 2025 10 12) wForm (wForm.sections.length - 1)
      { sectionIndex := 0, answers := wGood } =
      { sectionIndex := wForm.sections.length - 1, answers := wGood } ∧
    onSubmit (SimpleDate.mk 2025 10 12) wForm
      { sectionIndex := wForm.sections.length - 1, answers := wGood } =
      { state := initialState wForm, submitted := some wGood } := by
  exact round_trip (SimpleDate.mk 2025 10 12) wForm wGood (by decide) (by decide)

end DynamicForm
